import Mathlib

/-!
Verification of the whear-mobile "Today" outfit-swipe screen.

The development shallowly embeds the three code units the claims are about:
* `src/stores/todayCollectionStore.ts` — the persisted accepted collection
  (`addAccepted`, `removeAccepted`, `clearAll`);
* `src/screens/home/HomeScreen.tsx` — the screen-level sequencer
  (`goNext`, `onLeft`, `onRight`, `undo`, `onItemPress`) over the outfit
  array, the active index, the undo history and the processing guard;
* `src/components/SwipeableCard.tsx` — the release decision of the pan
  responder against `SWIPE_THRESHOLD`;
* `src/components/ArcCarousel.tsx` — the visible thumbnail window and the
  distance-based opacity/size assignment.

JavaScript array indices are modelled as `ℤ` (JS `arr.length - 1` can be
`-1`); out-of-range access returns `none` like JS `undefined`.  The optional
boolean fields `isAccepted?`/`isRejected?` are modelled as `Bool` (the code
only ever branches on their truthiness, where `undefined` behaves as
`false`).  Numeric screen quantities are modelled as `ℚ`.
-/

/-- An outfit suggestion record (`OutfitSuggestion` in `HomeScreen.tsx`).
Display-only fields (`title`, `subtitle`, `handle`, `reason`,
`bgGradient`) are carried by `imageUri` representatively: the operations
only ever read `id` and the two flags and copy every other field through
the object spread. -/
structure Outfit where
  id : String
  imageUri : String
  isAccepted : Bool
  isRejected : Bool
  deriving DecidableEq, Repr

/-! ## todayCollectionStore.ts -/

/-- Store operation `addAccepted`: no-op when an entry with the same id is
already present, otherwise prepends the outfit. -/
def addAccepted (outfit : Outfit) (accepted : List Outfit) : List Outfit :=
  if accepted.any (fun x => x.id == outfit.id) then accepted
  else outfit :: accepted

/-- Store operation `removeAccepted`: keeps every entry whose id differs. -/
def removeAccepted (i : String) (accepted : List Outfit) : List Outfit :=
  accepted.filter (fun x => x.id != i)

/-- Store operation `clearAll`. -/
def clearAll : List Outfit := []

/-! ## SwipeableCard.tsx -/

/-- The threshold `SWIPE_THRESHOLD = SCREEN_WIDTH * 0.26`, parametrised by the screen
width. -/
def SWIPE_THRESHOLD (screenWidth : ℚ) : ℚ := screenWidth * (26 / 100)

/-- The three terminal outcomes of a pan-responder release. -/
inductive ReleaseOutcome
  | commitLeft
  | commitRight
  | springBack
  deriving DecidableEq, Repr

/-- The decision taken in `onPanResponderRelease`: `shouldLeft = dx <
-SWIPE_THRESHOLD` commits left, else `shouldRight = dx > SWIPE_THRESHOLD`
commits right, else the card springs back. -/
def onPanResponderRelease (screenWidth dx : ℚ) : ReleaseOutcome :=
  if dx < -(SWIPE_THRESHOLD screenWidth) then ReleaseOutcome.commitLeft
  else if dx > SWIPE_THRESHOLD screenWidth then ReleaseOutcome.commitRight
  else ReleaseOutcome.springBack

/-! ## ArcCarousel.tsx -/

/-- The constant `visibleRange = 4`. -/
def visibleRange : ℤ := 4

/-- The list of item indices rendered by the carousel: the loop
`for (let i = start; i <= end; i++)` with `start = max(0, activeIndex - 4)`
and `end = min(items.length - 1, activeIndex + 4)`. -/
def visibleIdxs (numItems : ℕ) (activeIndex : ℤ) : List ℤ :=
  let start := max 0 (activeIndex - visibleRange)
  let stop := min ((numItems : ℤ) - 1) (activeIndex + visibleRange)
  if start ≤ stop then
    (List.range ((stop - start).toNat + 1)).map (fun (k : ℕ) => start + (k : ℤ))
  else []

/-- The thumbnail size `THUMB = 52`. -/
def THUMB : ℚ := 52

/-- The active-item size `CENTER = 70`. -/
def CENTER : ℚ := 70

/-- The distance `Math.abs(realIndex - activeIndex)`. -/
def thumbDist (realIndex activeIndex : ℤ) : ℕ :=
  (realIndex - activeIndex).natAbs

/-- The opacity assignment
`dist === 0 ? 1 : dist === 1 ? 0.75 : dist === 2 ? 0.55 : 0.35`. -/
def thumbOpacity (dist : ℕ) : ℚ :=
  if dist = 0 then 1
  else if dist = 1 then 75 / 100
  else if dist = 2 then 55 / 100
  else 35 / 100

/-- The size `size = isActive ? CENTER : THUMB` where `isActive` is
`realIndex === activeIndex`. -/
def thumbSize (realIndex activeIndex : ℤ) : ℚ :=
  if realIndex = activeIndex then CENTER else THUMB

/-! ## HomeScreen.tsx state and operations -/

/-- The swipe direction recorded in a history entry. -/
inductive SwipeAction
  | left
  | right
  deriving DecidableEq, Repr

/-- One undo-history record `{ index, action }`. -/
structure HistEntry where
  index : ℤ
  action : SwipeAction
  deriving DecidableEq, Repr

/-- The state of the screen together with the store it drives: `outfits`,
`activeIndex`, `history`, the `isProcessingRef` guard, and the stored
`accepted` list. -/
structure ScreenState where
  outfits : List Outfit
  activeIndex : ℤ
  history : List HistEntry
  isProcessing : Bool
  accepted : List Outfit
  deriving DecidableEq, Repr

/-- JS array subscription `l[i]`: `undefined` (here `none`) outside
`[0, l.length)`. -/
def jsIndex (l : List Outfit) (i : ℤ) : Option Outfit :=
  if 0 ≤ i then l[i.toNat]? else none

/-- Screen operation `goNext`:
`activeIndex := Math.min(activeIndex + 1, outfits.length - 1)`. -/
def goNext (st : ScreenState) : ScreenState :=
  { st with activeIndex := min (st.activeIndex + 1) ((st.outfits.length : ℤ) - 1) }

/-- Screen operation `onLeft`: bail out while processing; bail out when the active index
holds no outfit; otherwise mark every outfit with the current id rejected,
push a `left` history record, and (in the transition timeout) advance the
index and clear the guard. -/
def onLeft (st : ScreenState) : ScreenState :=
  if st.isProcessing then st
  else
    match jsIndex st.outfits st.activeIndex with
    | none => st
    | some current =>
      goNext { st with
        outfits := st.outfits.map (fun o =>
          if o.id == current.id then { o with isRejected := true, isAccepted := false } else o),
        history := st.history ++ [⟨st.activeIndex, SwipeAction.left⟩] }

/-- Screen operation `onRight`: like `onLeft` but marks the current id
accepted, calls the store operation `addAccepted current`, and pushes a
`right` history record. -/
def onRight (st : ScreenState) : ScreenState :=
  if st.isProcessing then st
  else
    match jsIndex st.outfits st.activeIndex with
    | none => st
    | some current =>
      goNext { st with
        outfits := st.outfits.map (fun o =>
          if o.id == current.id then { o with isAccepted := true, isRejected := false } else o),
        accepted := addAccepted current st.accepted,
        history := st.history ++ [⟨st.activeIndex, SwipeAction.right⟩] }

/-- Screen operation `undo`: bail out on empty history or while processing; bail out when
the last recorded index holds no outfit; otherwise remove the item from the
store iff the action was `right`, pop the history, clear both flags of the
outfit at the recorded index, and jump the active index back to it. -/
def undo (st : ScreenState) : ScreenState :=
  if st.history.isEmpty || st.isProcessing then st
  else
    match st.history.getLast? with
    | none => st
    | some last =>
      match jsIndex st.outfits last.index with
      | none => st
      | some item =>
        { st with
          accepted := if last.action = SwipeAction.right
            then removeAccepted item.id st.accepted else st.accepted,
          history := st.history.dropLast,
          outfits := st.outfits.mapIdx (fun idx o =>
            if (idx : ℤ) = last.index
            then { o with isAccepted := false, isRejected := false } else o),
          activeIndex := last.index }

/-- The carousel `onItemPress` handler of the screen: sets the active index
unless the guard is set. -/
def onItemPress (st : ScreenState) (index : ℤ) : ScreenState :=
  if st.isProcessing then st else { st with activeIndex := index }

/-! ## C5: release decision by the fixed distance threshold -/

/-- C5: on release with horizontal displacement `dx`, the decision is by the
fixed threshold `T = SCREEN_WIDTH * 0.26`: the left-swipe completion fires
iff `dx < -T`, the right-swipe completion fires iff `dx > T`, and otherwise
— in particular at `|dx|` exactly `T` — the card springs back and neither
callback fires. -/
theorem release_decision_by_threshold (w dx : ℚ) (hw : 0 < w) :
    (onPanResponderRelease w dx = ReleaseOutcome.commitLeft ↔ dx < -(w * (26 / 100))) ∧
    (onPanResponderRelease w dx = ReleaseOutcome.commitRight ↔ w * (26 / 100) < dx) ∧
    (-(w * (26 / 100)) ≤ dx → dx ≤ w * (26 / 100) →
      onPanResponderRelease w dx = ReleaseOutcome.springBack) ∧
    onPanResponderRelease w (w * (26 / 100)) = ReleaseOutcome.springBack ∧
    onPanResponderRelease w (-(w * (26 / 100))) = ReleaseOutcome.springBack := by
  have hT : 0 < w * (26 / 100) := by positivity
  unfold onPanResponderRelease SWIPE_THRESHOLD
  refine ⟨?_, ?_, ?_, ?_, ?_⟩
  · split_ifs with h1 h2 <;> simp_all
  · split_ifs with h1 h2 <;> simp_all
    linarith
  · intro hl hr
    split_ifs with h1 h2
    · linarith
    · linarith
    · rfl
  · split_ifs with h1 h2
    · linarith
    · linarith
    · rfl
  · split_ifs with h1 h2
    · linarith
    · linarith
    · rfl

/-- Witness for C5 at screen width 100: threshold 26, a drag of 30 commits
right. -/
theorem release_decision_by_threshold_witness :
    (0 : ℚ) < 100 ∧ onPanResponderRelease 100 30 = ReleaseOutcome.commitRight :=
  ⟨by norm_num,
    ((release_decision_by_threshold 100 30 (by norm_num)).2.1).mpr (by norm_num)⟩

/-! ## C6: arc carousel window, opacity falloff, active size -/

/-- Membership in the integer range list produced by the carousel loop. -/
theorem mem_arcRange (s t i : ℤ) (h : s ≤ t) :
    i ∈ (List.range ((t - s).toNat + 1)).map (fun (k : ℕ) => s + (k : ℤ)) ↔
      s ≤ i ∧ i ≤ t := by
  simp only [List.mem_map, List.mem_range]
  constructor
  · rintro ⟨k, hk, rfl⟩
    omega
  · rintro ⟨h1, h2⟩
    exact ⟨(i - s).toNat, by omega, by omega⟩

/-- C6: for `n` items and an active index in `[0, n-1]` the visible window
is exactly the contiguous indices from `max 0 (a-4)` to `min (n-1) (a+4)`
(hence at most 9 thumbnails); the opacity is a non-increasing function of
the distance from the active index with values 1, 0.75, 0.55 and 0.35 from
distance 3 on; and exactly the active item gets the larger `CENTER` size. -/
theorem arc_carousel_window_and_opacity (n : ℕ) (a : ℤ)
    (hn : 1 ≤ n) (ha0 : 0 ≤ a) (ha1 : a ≤ (n : ℤ) - 1) :
    (∀ i : ℤ, i ∈ visibleIdxs n a ↔
      max 0 (a - 4) ≤ i ∧ i ≤ min ((n : ℤ) - 1) (a + 4)) ∧
    (visibleIdxs n a).length ≤ 9 ∧
    (∀ d1 d2 : ℕ, d1 ≤ d2 → thumbOpacity d2 ≤ thumbOpacity d1) ∧
    thumbOpacity 0 = 1 ∧ thumbOpacity 1 = 75 / 100 ∧ thumbOpacity 2 = 55 / 100 ∧
    (∀ d : ℕ, 3 ≤ d → thumbOpacity d = 35 / 100) ∧
    (∀ i : ℤ, i ∈ visibleIdxs n a → (thumbSize i a = CENTER ↔ i = a)) ∧
    THUMB < CENTER := by
  have hmem : ∀ i : ℤ, i ∈ visibleIdxs n a ↔
      max 0 (a - 4) ≤ i ∧ i ≤ min ((n : ℤ) - 1) (a + 4) := by
    intro i
    simp only [visibleIdxs, visibleRange]
    split_ifs with h
    · exact mem_arcRange _ _ i h
    · simp only [List.not_mem_nil, false_iff]
      exact fun hc => h (le_trans hc.1 hc.2)
  refine ⟨hmem, ?_, ?_, by norm_num [thumbOpacity], by norm_num [thumbOpacity],
    by norm_num [thumbOpacity], ?_, ?_, by norm_num [THUMB, CENTER]⟩
  · have h1 : a - 4 ≤ max 0 (a - 4) := le_max_right _ _
    have h2 : min ((n : ℤ) - 1) (a + 4) ≤ a + 4 := min_le_right _ _
    simp only [visibleIdxs, visibleRange]
    set s := max 0 (a - 4) with hs
    set t := min ((n : ℤ) - 1) (a + 4) with ht
    split_ifs with h
    · simp only [List.length_map, List.length_range]
      omega
    · simp
  · intro d1 d2 h
    unfold thumbOpacity
    split_ifs <;> (try norm_num) <;> omega
  · intro d hd
    rw [thumbOpacity, if_neg (by omega), if_neg (by omega), if_neg (by omega)]
  · intro i _
    unfold thumbSize CENTER THUMB
    split_ifs with h
    · simp [h]
    · simp only [h, iff_false]
      norm_num

/-- Witness for C6 with 8 items and active index 0: index 3 is visible and
the window holds at most 9 thumbnails. -/
theorem arc_carousel_window_and_opacity_witness :
    ((1 : ℕ) ≤ 8 ∧ (0 : ℤ) ≤ 0 ∧ (0 : ℤ) ≤ (8 : ℤ) - 1) ∧
    ((3 : ℤ) ∈ visibleIdxs 8 0 ↔
      max 0 ((0 : ℤ) - 4) ≤ 3 ∧ (3 : ℤ) ≤ min ((8 : ℤ) - 1) (0 + 4)) ∧
    (visibleIdxs 8 0).length ≤ 9 :=
  ⟨⟨by decide, by decide, by decide⟩,
    (arc_carousel_window_and_opacity 8 0 (by decide) (by decide) (by decide)).1 3,
    (arc_carousel_window_and_opacity 8 0 (by decide) (by decide) (by decide)).2.1⟩

/-! ## Helper lemmas on the screen operations -/

/-- JS indexing commutes with mapping over the outfit array. -/
theorem jsIndex_map (f : Outfit → Outfit) (l : List Outfit) (i : ℤ) :
    jsIndex (l.map f) i = (jsIndex l i).map f := by
  unfold jsIndex
  split_ifs <;> simp

/-- After `addAccepted cur`, some record with the id of `cur` is in the list. -/
theorem id_mem_addAccepted (cur : Outfit) (acc : List Outfit) :
    cur.id ∈ (addAccepted cur acc).map Outfit.id := by
  unfold addAccepted
  split_ifs with h
  · simp only [List.any_eq_true, beq_iff_eq] at h
    obtain ⟨x, hx, he⟩ := h
    exact List.mem_map.mpr ⟨x, hx, he⟩
  · simp

/-! ## C1: right swipe accepts and persists -/

/-- C1: from a state with the guard clear and an outfit at the active
index, `onRight` marks that outfit `isAccepted = true`, `isRejected =
false`, appends `{index: activeIndex, action: right}` to the history, and
adds the outfit to the persisted accepted collection (via the store
operation `addAccepted`, so a record with its id is present afterwards). -/
theorem onRight_accepts_and_persists (st : ScreenState) (cur : Outfit)
    (hp : st.isProcessing = false)
    (hc : jsIndex st.outfits st.activeIndex = some cur) :
    jsIndex (onRight st).outfits st.activeIndex =
      some { cur with isAccepted := true, isRejected := false } ∧
    (onRight st).history = st.history ++ [⟨st.activeIndex, SwipeAction.right⟩] ∧
    (onRight st).accepted = addAccepted cur st.accepted ∧
    cur.id ∈ (onRight st).accepted.map Outfit.id := by
  have hstep : onRight st = goNext { st with
      outfits := st.outfits.map (fun o =>
        if o.id == cur.id then { o with isAccepted := true, isRejected := false } else o),
      accepted := addAccepted cur st.accepted,
      history := st.history ++ [⟨st.activeIndex, SwipeAction.right⟩] } := by
    simp only [onRight, hp, hc]
    rfl
  refine ⟨?_, ?_, ?_, ?_⟩
  · rw [hstep]
    show jsIndex (st.outfits.map _) st.activeIndex = _
    rw [jsIndex_map, hc]
    simp
  · rw [hstep]
    rfl
  · rw [hstep]
    rfl
  · rw [hstep]
    exact id_mem_addAccepted cur st.accepted

/-- Witness for C1 on a one-outfit state. -/
theorem onRight_accepts_and_persists_witness :
    (⟨[⟨"1", "u", false, false⟩], 0, [], false, []⟩ : ScreenState).isProcessing = false ∧
    jsIndex (onRight ⟨[⟨"1", "u", false, false⟩], 0, [], false, []⟩).outfits 0 =
      some ⟨"1", "u", true, false⟩ ∧
    "1" ∈ (onRight ⟨[⟨"1", "u", false, false⟩], 0, [], false, []⟩).accepted.map Outfit.id :=
  ⟨rfl,
    (onRight_accepts_and_persists ⟨[⟨"1", "u", false, false⟩], 0, [], false, []⟩
      ⟨"1", "u", false, false⟩ rfl rfl).1,
    (onRight_accepts_and_persists ⟨[⟨"1", "u", false, false⟩], 0, [], false, []⟩
      ⟨"1", "u", false, false⟩ rfl rfl).2.2.2⟩

/-! ## C2: left swipe rejects, store untouched -/

/-- C2: from a state with the guard clear and an outfit at the active
index, `onLeft` marks that outfit `isRejected = true`, `isAccepted =
false`, appends `{index: activeIndex, action: left}` to the history, and
leaves the persisted accepted collection unchanged. -/
theorem onLeft_rejects (st : ScreenState) (cur : Outfit)
    (hp : st.isProcessing = false)
    (hc : jsIndex st.outfits st.activeIndex = some cur) :
    jsIndex (onLeft st).outfits st.activeIndex =
      some { cur with isRejected := true, isAccepted := false } ∧
    (onLeft st).history = st.history ++ [⟨st.activeIndex, SwipeAction.left⟩] ∧
    (onLeft st).accepted = st.accepted := by
  have hstep : onLeft st = goNext { st with
      outfits := st.outfits.map (fun o =>
        if o.id == cur.id then { o with isRejected := true, isAccepted := false } else o),
      history := st.history ++ [⟨st.activeIndex, SwipeAction.left⟩] } := by
    simp only [onLeft, hp, hc]
    rfl
  refine ⟨?_, ?_, ?_⟩
  · rw [hstep]
    show jsIndex (st.outfits.map _) st.activeIndex = _
    rw [jsIndex_map, hc]
    simp
  · rw [hstep]
    rfl
  · rw [hstep]
    rfl

/-- Witness for C2 on a one-outfit state. -/
theorem onLeft_rejects_witness :
    (⟨[⟨"1", "u", false, false⟩], 0, [], false, []⟩ : ScreenState).isProcessing = false ∧
    jsIndex (onLeft ⟨[⟨"1", "u", false, false⟩], 0, [], false, []⟩).outfits 0 =
      some ⟨"1", "u", false, true⟩ ∧
    (onLeft ⟨[⟨"1", "u", false, false⟩], 0, [], false, []⟩).accepted = [] :=
  ⟨rfl,
    (onLeft_rejects ⟨[⟨"1", "u", false, false⟩], 0, [], false, []⟩
      ⟨"1", "u", false, false⟩ rfl rfl).1,
    (onLeft_rejects ⟨[⟨"1", "u", false, false⟩], 0, [], false, []⟩
      ⟨"1", "u", false, false⟩ rfl rfl).2.2⟩

/-! ## C8: the processing guard debounces every entry point -/

/-- C8: while the processing guard is set, `onLeft`, `onRight`, `undo` and
carousel item presses leave the whole state — outfits, history, active
index and the persisted collection — unchanged. -/
theorem processing_guard_blocks (st : ScreenState) (i : ℤ)
    (hp : st.isProcessing = true) :
    onLeft st = st ∧ onRight st = st ∧ undo st = st ∧ onItemPress st i = st := by
  refine ⟨?_, ?_, ?_, ?_⟩ <;> simp [onLeft, onRight, undo, onItemPress, hp]

/-- Witness for C8 on a guarded state. -/
theorem processing_guard_blocks_witness :
    (⟨[⟨"1", "u", false, false⟩], 0, [], true, []⟩ : ScreenState).isProcessing = true ∧
    onLeft ⟨[⟨"1", "u", false, false⟩], 0, [], true, []⟩ =
      ⟨[⟨"1", "u", false, false⟩], 0, [], true, []⟩ ∧
    onItemPress ⟨[⟨"1", "u", false, false⟩], 0, [], true, []⟩ 7 =
      ⟨[⟨"1", "u", false, false⟩], 0, [], true, []⟩ :=
  ⟨rfl,
    (processing_guard_blocks _ 7 rfl).1,
    (processing_guard_blocks _ 7 rfl).2.2.2⟩

/-! ## C9: defensive out-of-range handling -/

/-- C9: with the guard clear, when the active index holds no outfit,
`onLeft`/`onRight` return the state unchanged, and when the last history
entry records an index holding no outfit, `undo` returns the state unchanged; in both
cases the processing guard ends clear. -/
theorem out_of_range_is_noop (st : ScreenState)
    (hp : st.isProcessing = false) :
    (jsIndex st.outfits st.activeIndex = none →
      onLeft st = st ∧ onRight st = st ∧
      (onLeft st).isProcessing = false ∧ (onRight st).isProcessing = false) ∧
    (∀ last, st.history.getLast? = some last →
      jsIndex st.outfits last.index = none →
      undo st = st ∧ (undo st).isProcessing = false) := by
  constructor
  · intro hnone
    have h1 : onLeft st = st := by simp [onLeft, hp, hnone]
    have h2 : onRight st = st := by simp [onRight, hp, hnone]
    exact ⟨h1, h2, by rw [h1]; exact hp, by rw [h2]; exact hp⟩
  · intro last hlast hnone
    have h3 : undo st = st := by
      simp [undo, hp, hlast, hnone]
    exact ⟨h3, by rw [h3]; exact hp⟩

/-- Witness for C9 on a state whose outfit array is empty. -/
theorem out_of_range_is_noop_witness :
    (⟨[], 0, [⟨5, SwipeAction.right⟩], false, []⟩ : ScreenState).isProcessing = false ∧
    onLeft ⟨[], 0, [⟨5, SwipeAction.right⟩], false, []⟩ =
      ⟨[], 0, [⟨5, SwipeAction.right⟩], false, []⟩ ∧
    undo ⟨[], 0, [⟨5, SwipeAction.right⟩], false, []⟩ =
      ⟨[], 0, [⟨5, SwipeAction.right⟩], false, []⟩ :=
  ⟨rfl,
    ((out_of_range_is_noop ⟨[], 0, [⟨5, SwipeAction.right⟩], false, []⟩ rfl).1 rfl).1,
    ((out_of_range_is_noop ⟨[], 0, [⟨5, SwipeAction.right⟩], false, []⟩ rfl).2
      ⟨5, SwipeAction.right⟩ rfl rfl).1⟩

/-! ## C7: the persisted collection keeps at most one record per id -/

/-- One call into the today-collection store. -/
inductive StoreOp
  | add (o : Outfit)
  | remove (i : String)
  | clear
  deriving Repr

/-- Apply one store call. -/
def applyStoreOp (accepted : List Outfit) : StoreOp → List Outfit
  | StoreOp.add o => addAccepted o accepted
  | StoreOp.remove i => removeAccepted i accepted
  | StoreOp.clear => clearAll

/-- The accepted list after a call sequence, from the initial `[]`. -/
def runStore (ops : List StoreOp) : List Outfit :=
  ops.foldl applyStoreOp []

/-- Every store call preserves uniqueness of the ids. -/
theorem nodup_applyStoreOp (acc : List Outfit) (op : StoreOp)
    (h : (acc.map Outfit.id).Nodup) :
    ((applyStoreOp acc op).map Outfit.id).Nodup := by
  cases op with
  | add o =>
    simp only [applyStoreOp, addAccepted]
    split_ifs with hin
    · exact h
    · simp only [List.map_cons, List.nodup_cons]
      refine ⟨?_, h⟩
      intro hmem
      obtain ⟨x, hx, he⟩ := List.mem_map.mp hmem
      exact hin (List.any_eq_true.mpr ⟨x, hx, by simp [he]⟩)
  | remove i =>
    simp only [applyStoreOp, removeAccepted]
    exact h.sublist ((List.filter_sublist acc).map Outfit.id)
  | clear =>
    simp [applyStoreOp, clearAll]

/-- C7: from the empty list, any sequence of `addAccepted`,
`removeAccepted` and `clearAll` keeps at most one record per id, and
`addAccepted` of an outfit whose id is already present is a no-op. -/
theorem accepted_ids_unique (ops : List StoreOp) (o : Outfit) (acc : List Outfit)
    (hdup : acc.any (fun x => x.id == o.id) = true) :
    ((runStore ops).map Outfit.id).Nodup ∧ addAccepted o acc = acc := by
  constructor
  · have hgen : ∀ start : List Outfit, (start.map Outfit.id).Nodup →
        ((ops.foldl applyStoreOp start).map Outfit.id).Nodup := by
      induction ops with
      | nil => exact fun start h => h
      | cons op rest ih =>
        exact fun start h => ih (applyStoreOp start op) (nodup_applyStoreOp start op h)
    exact hgen [] (by simp)
  · simp [addAccepted, hdup]

/-- Witness for C7: a duplicate add is dropped and ids stay unique. -/
theorem accepted_ids_unique_witness :
    ([⟨"1", "u", false, false⟩] : List Outfit).any
      (fun x => x.id == (⟨"1", "v", false, false⟩ : Outfit).id) = true ∧
    ((runStore [StoreOp.add ⟨"1", "u", false, false⟩,
        StoreOp.add ⟨"1", "v", false, false⟩,
        StoreOp.add ⟨"2", "w", false, false⟩]).map Outfit.id).Nodup ∧
    addAccepted ⟨"1", "v", false, false⟩ [⟨"1", "u", false, false⟩] =
      [⟨"1", "u", false, false⟩] :=
  ⟨by decide,
    (accepted_ids_unique
      [StoreOp.add ⟨"1", "u", false, false⟩, StoreOp.add ⟨"1", "v", false, false⟩,
        StoreOp.add ⟨"2", "w", false, false⟩]
      ⟨"1", "v", false, false⟩ [⟨"1", "u", false, false⟩] (by decide)).1,
    (accepted_ids_unique
      [StoreOp.add ⟨"1", "u", false, false⟩, StoreOp.add ⟨"1", "v", false, false⟩,
        StoreOp.add ⟨"2", "w", false, false⟩]
      ⟨"1", "v", false, false⟩ [⟨"1", "u", false, false⟩] (by decide)).2⟩

/-! ## Screen action sequences -/

/-- One user interaction handled by the screen. -/
inductive ScreenAct
  | left
  | right
  | undoAct
  | next
  | press (i : ℤ)
  deriving Repr

/-- Apply one user action. -/
def applyAct (st : ScreenState) : ScreenAct → ScreenState
  | ScreenAct.left => onLeft st
  | ScreenAct.right => onRight st
  | ScreenAct.undoAct => undo st
  | ScreenAct.next => goNext st
  | ScreenAct.press i => onItemPress st i

/-- Run a sequence of user actions. -/
def runActs (st : ScreenState) (acts : List ScreenAct) : ScreenState :=
  acts.foldl applyAct st

/-! ## C10: accepted/rejected flags are mutually exclusive -/

/-- No outfit of the state carries both flags. -/
def flagsExclusive (st : ScreenState) : Prop :=
  ∀ o ∈ st.outfits, ¬(o.isAccepted = true ∧ o.isRejected = true)

/-- Membership in a `mapIdx` image comes from some position of the list. -/
theorem mem_mapIdx_outfits {l : List Outfit} {f : ℕ → Outfit → Outfit} {b : Outfit}
    (h : b ∈ l.mapIdx f) : ∃ n, ∃ hn : n < l.length, f n (l.get ⟨n, hn⟩) = b := by
  rw [List.mapIdx_eq_ofFn] at h
  obtain ⟨i, hi⟩ := (List.mem_ofFn _ _).mp h
  exact ⟨i, i.isLt, hi⟩

theorem flagsExclusive_onLeft (st : ScreenState) (h : flagsExclusive st) :
    flagsExclusive (onLeft st) := by
  unfold onLeft
  split_ifs with hp
  · exact h
  · rcases jsIndex st.outfits st.activeIndex with _ | cur
    · exact h
    · intro o ho
      simp only [goNext] at ho
      obtain ⟨x, hx, rfl⟩ := List.mem_map.mp ho
      by_cases hid : (x.id == cur.id) = true
      · simp [hid]
      · simp only [hid, Bool.false_eq_true, if_false]
        exact h x hx

theorem flagsExclusive_onRight (st : ScreenState) (h : flagsExclusive st) :
    flagsExclusive (onRight st) := by
  unfold onRight
  split_ifs with hp
  · exact h
  · rcases jsIndex st.outfits st.activeIndex with _ | cur
    · exact h
    · intro o ho
      simp only [goNext] at ho
      obtain ⟨x, hx, rfl⟩ := List.mem_map.mp ho
      by_cases hid : (x.id == cur.id) = true
      · simp [hid]
      · simp only [hid, Bool.false_eq_true, if_false]
        exact h x hx

/-- The committed form of `undo` when the guard is clear, the history is
non-empty and the recorded index holds an outfit. -/
theorem undo_eq (st : ScreenState) (last : HistEntry) (item : Outfit)
    (hp : st.isProcessing = false)
    (hl : st.history.getLast? = some last)
    (hj : jsIndex st.outfits last.index = some item) :
    undo st = { st with
      accepted := if last.action = SwipeAction.right
        then removeAccepted item.id st.accepted else st.accepted,
      history := st.history.dropLast,
      outfits := st.outfits.mapIdx (fun idx o =>
        if (idx : ℤ) = last.index
        then { o with isAccepted := false, isRejected := false } else o),
      activeIndex := last.index } := by
  have hne : st.history ≠ [] := by
    intro hc
    rw [hc] at hl
    simp at hl
  have hie : st.history.isEmpty = false := by
    simpa using hne
  simp [undo, hie, hp, hl, hj]

/-- The operation `undo` is the identity when the history yields no
applicable record. -/
theorem undo_eq_self (st : ScreenState) :
    (st.history.getLast? = none → undo st = st) ∧
    (∀ last, st.history.getLast? = some last →
      jsIndex st.outfits last.index = none → undo st = st) := by
  constructor
  · intro hl
    simp [undo, hl]
  · intro last hl hj
    simp [undo, hl, hj]

theorem flagsExclusive_undo (st : ScreenState) (h : flagsExclusive st) :
    flagsExclusive (undo st) := by
  cases hl : st.history.getLast? with
  | none =>
    rw [(undo_eq_self st).1 hl]
    exact h
  | some last =>
    cases hj : jsIndex st.outfits last.index with
    | none =>
      rw [(undo_eq_self st).2 last hl hj]
      exact h
    | some item =>
      by_cases hp : st.isProcessing = true
      · have hu : undo st = st := by simp [undo, hp]
        rw [hu]
        exact h
      · rw [undo_eq st last item (by simpa using hp) hl hj]
        intro o ho
        obtain ⟨n, hn, rfl⟩ := mem_mapIdx_outfits ho
        by_cases hidx : ((n : ℤ) = last.index)
        · simp [hidx]
        · simp only [hidx, if_false]
          exact h _ (List.get_mem _ _ _)

theorem flagsExclusive_onItemPress (st : ScreenState) (i : ℤ)
    (h : flagsExclusive st) : flagsExclusive (onItemPress st i) := by
  unfold onItemPress
  split_ifs <;> exact h

/-- C10: along any action sequence no outfit ever has `isAccepted` and
`isRejected` both true: each swipe sets one flag and clears the other, and
`undo` clears both. -/
theorem flags_mutually_exclusive (st : ScreenState) (acts : List ScreenAct)
    (h : flagsExclusive st) : flagsExclusive (runActs st acts) := by
  induction acts generalizing st with
  | nil => exact h
  | cons a rest ih =>
    refine ih (applyAct st a) ?_
    cases a with
    | left => exact flagsExclusive_onLeft st h
    | right => exact flagsExclusive_onRight st h
    | undoAct => exact flagsExclusive_undo st h
    | next => exact h
    | press i => exact flagsExclusive_onItemPress st i h

/-- Witness for C10 on a two-outfit state and a mixed action sequence. -/
theorem flags_mutually_exclusive_witness :
    flagsExclusive (runActs
      ⟨[⟨"1", "u", false, false⟩, ⟨"2", "v", false, false⟩], 0, [], false, []⟩
      [ScreenAct.right, ScreenAct.left, ScreenAct.undoAct]) :=
  flags_mutually_exclusive
    ⟨[⟨"1", "u", false, false⟩, ⟨"2", "v", false, false⟩], 0, [], false, []⟩
    [ScreenAct.right, ScreenAct.left, ScreenAct.undoAct]
    (by intro o ho; fin_cases ho <;> simp)

/-! ## C4: the active index and history indices stay in bounds -/

/-- A carousel press is in range; every other action is unconstrained. -/
def validAct (n : ℕ) : ScreenAct → Prop
  | ScreenAct.press i => 0 ≤ i ∧ i < (n : ℤ)
  | _ => True

instance instDecidableValidAct (n : ℕ) (a : ScreenAct) : Decidable (validAct n a) := by
  cases a with
  | press i => exact inferInstanceAs (Decidable (0 ≤ i ∧ i < (n : ℤ)))
  | left => exact inferInstanceAs (Decidable True)
  | right => exact inferInstanceAs (Decidable True)
  | undoAct => exact inferInstanceAs (Decidable True)
  | next => exact inferInstanceAs (Decidable True)

/-- The index invariant: the active index is in `[0, length - 1]` and so is
the index of every history record. -/
def indexInv (st : ScreenState) : Prop :=
  0 ≤ st.activeIndex ∧ st.activeIndex < (st.outfits.length : ℤ) ∧
  ∀ e ∈ st.history, 0 ≤ e.index ∧ e.index < (st.outfits.length : ℤ)

/-- A successful JS subscription certifies the index is in range. -/
theorem jsIndex_isSome_bounds {l : List Outfit} {i : ℤ} {o : Outfit}
    (h : jsIndex l i = some o) : 0 ≤ i ∧ i < (l.length : ℤ) := by
  unfold jsIndex at h
  split_ifs at h with h0
  obtain ⟨hlt, _⟩ := List.getElem?_eq_some.mp h
  exact ⟨h0, by omega⟩

/-- No screen action changes the number of outfits. -/
theorem length_applyAct (st : ScreenState) (a : ScreenAct) :
    (applyAct st a).outfits.length = st.outfits.length := by
  cases a with
  | left =>
    show (onLeft st).outfits.length = _
    unfold onLeft
    split_ifs
    · rfl
    · rcases jsIndex st.outfits st.activeIndex with _ | cur
      · rfl
      · simp [goNext]
  | right =>
    show (onRight st).outfits.length = _
    unfold onRight
    split_ifs
    · rfl
    · rcases jsIndex st.outfits st.activeIndex with _ | cur
      · rfl
      · simp [goNext]
  | undoAct =>
    show (undo st).outfits.length = _
    cases hl : st.history.getLast? with
    | none => rw [(undo_eq_self st).1 hl]
    | some last =>
      cases hj : jsIndex st.outfits last.index with
      | none => rw [(undo_eq_self st).2 last hl hj]
      | some item =>
        by_cases hp : st.isProcessing = true
        · simp [undo, hp]
        · rw [undo_eq st last item (by simpa using hp) hl hj]
          simp
  | next => rfl
  | press i =>
    show (onItemPress st i).outfits.length = _
    unfold onItemPress
    split_ifs <;> rfl

theorem indexInv_goNext (st : ScreenState) (hne : st.outfits ≠ [])
    (h : indexInv st) : indexInv (goNext st) := by
  obtain ⟨h0, h1, hh⟩ := h
  have hlen : 0 < st.outfits.length := List.length_pos.mpr hne
  refine ⟨?_, ?_, hh⟩
  · exact le_min (by omega) (by omega)
  · show min (st.activeIndex + 1) ((st.outfits.length : ℤ) - 1) <
      (st.outfits.length : ℤ)
    exact lt_of_le_of_lt (min_le_right _ _) (by omega)

theorem indexInv_onLeft (st : ScreenState) (hne : st.outfits ≠ [])
    (h : indexInv st) : indexInv (onLeft st) := by
  unfold onLeft
  split_ifs
  · exact h
  · rcases jsIndex st.outfits st.activeIndex with _ | cur
    · exact h
    · obtain ⟨h0, h1, hh⟩ := h
      apply indexInv_goNext
      · simpa using hne
      · refine ⟨by simpa using h0, by simpa using h1, ?_⟩
        intro e he
        rcases List.mem_append.mp he with he | he
        · simpa using hh e he
        · rw [List.mem_singleton.mp he]
          exact ⟨by simpa using h0, by simpa using h1⟩

theorem indexInv_onRight (st : ScreenState) (hne : st.outfits ≠ [])
    (h : indexInv st) : indexInv (onRight st) := by
  unfold onRight
  split_ifs
  · exact h
  · rcases jsIndex st.outfits st.activeIndex with _ | cur
    · exact h
    · obtain ⟨h0, h1, hh⟩ := h
      apply indexInv_goNext
      · simpa using hne
      · refine ⟨by simpa using h0, by simpa using h1, ?_⟩
        intro e he
        rcases List.mem_append.mp he with he | he
        · simpa using hh e he
        · rw [List.mem_singleton.mp he]
          exact ⟨by simpa using h0, by simpa using h1⟩

theorem indexInv_undo (st : ScreenState) (h : indexInv st) :
    indexInv (undo st) := by
  cases hl : st.history.getLast? with
  | none =>
    rw [(undo_eq_self st).1 hl]
    exact h
  | some last =>
    cases hj : jsIndex st.outfits last.index with
    | none =>
      rw [(undo_eq_self st).2 last hl hj]
      exact h
    | some item =>
      by_cases hp : st.isProcessing = true
      · have hu : undo st = st := by simp [undo, hp]
        rw [hu]
        exact h
      · rw [undo_eq st last item (by simpa using hp) hl hj]
        obtain ⟨hb0, hb1⟩ := jsIndex_isSome_bounds hj
        refine ⟨by simpa using hb0, by simpa using hb1, ?_⟩
        intro e he
        have he' : e ∈ st.history := (List.dropLast_sublist st.history).subset he
        simpa using h.2.2 e he'

theorem indexInv_onItemPress (st : ScreenState) (i : ℤ)
    (h0 : 0 ≤ i) (h1 : i < (st.outfits.length : ℤ))
    (h : indexInv st) : indexInv (onItemPress st i) := by
  unfold onItemPress
  split_ifs
  · exact h
  · exact ⟨h0, h1, h.2.2⟩

/-- C4: for a non-empty outfit array, any sequence of swipes, undos,
`goNext` advances and in-range carousel presses keeps the active index in
`[0, length - 1]` and the index of every history record in the same range. -/
theorem index_bounds_invariant (st : ScreenState) (acts : List ScreenAct)
    (hne : st.outfits ≠ [])
    (hv : ∀ a ∈ acts, validAct st.outfits.length a)
    (h : indexInv st) : indexInv (runActs st acts) := by
  induction acts generalizing st with
  | nil => exact h
  | cons a rest ih =>
    have hlen := length_applyAct st a
    have hne' : (applyAct st a).outfits ≠ [] := by
      intro hc
      apply hne
      rw [← List.length_eq_zero, ← hlen, hc]
      rfl
    refine ih (applyAct st a) hne' ?_ ?_
    · intro b hb
      rw [hlen]
      exact hv b (List.mem_cons_of_mem _ hb)
    · have hva := hv a (List.mem_cons_self _ _)
      cases a with
      | left => exact indexInv_onLeft st hne h
      | right => exact indexInv_onRight st hne h
      | undoAct => exact indexInv_undo st h
      | next => exact indexInv_goNext st hne h
      | press i => exact indexInv_onItemPress st i hva.1 hva.2 h

/-- Witness for C4 on a two-outfit state and a mixed action sequence. -/
theorem index_bounds_invariant_witness :
    indexInv (runActs
      ⟨[⟨"1", "u", false, false⟩, ⟨"2", "v", false, false⟩], 0, [], false, []⟩
      [ScreenAct.right, ScreenAct.press 0, ScreenAct.undoAct, ScreenAct.next,
        ScreenAct.left]) :=
  index_bounds_invariant
    ⟨[⟨"1", "u", false, false⟩, ⟨"2", "v", false, false⟩], 0, [], false, []⟩
    [ScreenAct.right, ScreenAct.press 0, ScreenAct.undoAct, ScreenAct.next,
      ScreenAct.left]
    (by decide)
    (by intro a ha; fin_cases ha <;> exact (by decide))
    ⟨by decide, by decide, by intro e he; cases he⟩

/-! ## C3: undo after a swipe -/

/-- Clearing both flags is the identity on an outfit whose flags are
clear. -/
theorem clear_flags_eq_self (o : Outfit) (ha : o.isAccepted = false)
    (hr : o.isRejected = false) :
    ({ o with isAccepted := false, isRejected := false } : Outfit) = o := by
  cases o
  simp_all

/-- Clearing both flags after setting them clears the original outfit's
flags. -/
theorem clear_after_set (cur : Outfit) (hacc : cur.isAccepted = false)
    (hrej : cur.isRejected = false) (b1 b2 : Bool) :
    ({ ({ cur with isAccepted := b1, isRejected := b2 } : Outfit) with
        isAccepted := false, isRejected := false } : Outfit) = cur := by
  cases cur
  simp_all

/-- Two screen states with equal components are equal. -/
theorem screenState_ext (s t : ScreenState)
    (h1 : s.outfits = t.outfits) (h2 : s.activeIndex = t.activeIndex)
    (h3 : s.history = t.history) (h4 : s.isProcessing = t.isProcessing)
    (h5 : s.accepted = t.accepted) : s = t := by
  cases s
  cases t
  simp_all

/-- The committed form of `onLeft` when the guard is clear and the active
index holds an outfit. -/
theorem onLeft_eq (st : ScreenState) (cur : Outfit)
    (hp : st.isProcessing = false)
    (hc : jsIndex st.outfits st.activeIndex = some cur) :
    onLeft st = goNext { st with
      outfits := st.outfits.map (fun o =>
        if o.id == cur.id then { o with isRejected := true, isAccepted := false } else o),
      history := st.history ++ [⟨st.activeIndex, SwipeAction.left⟩] } := by
  simp only [onLeft, hp, hc]
  rfl

/-- The committed form of `onRight` when the guard is clear and the active
index holds an outfit. -/
theorem onRight_eq (st : ScreenState) (cur : Outfit)
    (hp : st.isProcessing = false)
    (hc : jsIndex st.outfits st.activeIndex = some cur) :
    onRight st = goNext { st with
      outfits := st.outfits.map (fun o =>
        if o.id == cur.id then { o with isAccepted := true, isRejected := false } else o),
      accepted := addAccepted cur st.accepted,
      history := st.history ++ [⟨st.activeIndex, SwipeAction.right⟩] } := by
  simp only [onRight, hp, hc]
  rfl

/-- When no record with the id of the outfit is present, `addAccepted`
prepends. -/
theorem addAccepted_of_not_mem (cur : Outfit) (acc : List Outfit)
    (h : ∀ x ∈ acc, x.id ≠ cur.id) :
    addAccepted cur acc = cur :: acc := by
  have hany : acc.any (fun x => x.id == cur.id) = false := by
    cases hb : acc.any (fun x => x.id == cur.id)
    · rfl
    · obtain ⟨x, hx, he⟩ := List.any_eq_true.mp hb
      exact absurd (by simpa using he) (h x hx)
  rw [addAccepted, hany]
  simp

/-- Removing the id just added restores the collection when the id was not
present before. -/
theorem removeAccepted_addAccepted (cur : Outfit) (acc : List Outfit)
    (h : ∀ x ∈ acc, x.id ≠ cur.id) :
    removeAccepted cur.id (addAccepted cur acc) = acc := by
  rw [addAccepted_of_not_mem cur acc h]
  unfold removeAccepted
  rw [List.filter_cons_of_neg (by simp)]
  exact List.filter_eq_self.mpr (fun a ha => by simpa using h a ha)

/-- Mapping a flag-only update over the array and then clearing both flags
at the updated position restores the array, provided the ids are unique,
the update is the identity away from the target id, and clearing the
updated target gives back the original outfit. -/
theorem mapIdx_clear_restores (l : List Outfit) (m : ℕ) (hm : m < l.length)
    (j : ℤ) (hj : j = (m : ℤ))
    (hnodup : (l.map Outfit.id).Nodup)
    (f : Outfit → Outfit)
    (hfid : ∀ x, x.id ≠ (l.get ⟨m, hm⟩).id → f x = x)
    (hfm : ({ f (l.get ⟨m, hm⟩) with isAccepted := false, isRejected := false } : Outfit)
      = l.get ⟨m, hm⟩) :
    (l.map f).mapIdx (fun idx o =>
      if (idx : ℤ) = j
      then { o with isAccepted := false, isRejected := false } else o) = l := by
  subst hj
  apply List.ext_get
  · simp
  intro n h1 h2
  have hn' : n < (l.map f).length := by simpa using h2
  rw [List.get_mapIdx (l.map f) _ n hn', List.get_map]
  by_cases hnm : n = m
  · subst hnm
    rw [if_pos (by exact_mod_cast rfl)]
    exact hfm
  · rw [if_neg (fun hcast => hnm (by exact_mod_cast hcast))]
    refine hfid _ ?_
    intro he
    apply hnm
    have hmap1 : n < (l.map Outfit.id).length := by simpa using h2
    have hmap2 : m < (l.map Outfit.id).length := by simpa using hm
    have heq : (l.map Outfit.id).get ⟨n, hmap1⟩ = (l.map Outfit.id).get ⟨m, hmap2⟩ := by
      rw [List.get_map, List.get_map]
      exact he
    have hfin := (hnodup.get_inj_iff).mp heq
    exact congrArg Fin.val hfin

/-- C3 (counterexample to the claim as stated): on a state whose active
outfit is already accepted and already in the persisted collection, a
right-swipe commit followed by undo does not restore the state — undo
empties the accepted collection and clears the pre-existing flag. -/
theorem undo_reverts_counterexample :
    (⟨[⟨"1", "u", true, false⟩], 0, [], false,
        [⟨"1", "u", true, false⟩]⟩ : ScreenState).isProcessing = false ∧
    jsIndex [⟨"1", "u", true, false⟩] 0 = some ⟨"1", "u", true, false⟩ ∧
    (undo (onRight ⟨[⟨"1", "u", true, false⟩], 0, [], false,
        [⟨"1", "u", true, false⟩]⟩)).accepted ≠
      (⟨[⟨"1", "u", true, false⟩], 0, [], false,
        [⟨"1", "u", true, false⟩]⟩ : ScreenState).accepted := by
  refine ⟨rfl, rfl, ?_⟩
  decide

/-- C3 (amended): undo reverts exactly one swipe from any state whose
active outfit is fresh — guard clear, outfit ids unique, the active
outfit has both flags clear, and no record with its id in the accepted
collection: then `onRight` followed by `undo` and `onLeft` followed by
`undo` restore the outfits, the active index, the history and the accepted
collection exactly; `undo` on an empty history changes nothing. -/
theorem undo_reverts_one_fresh_swipe (st : ScreenState) (cur : Outfit)
    (hp : st.isProcessing = false)
    (hc : jsIndex st.outfits st.activeIndex = some cur)
    (hnodup : (st.outfits.map Outfit.id).Nodup)
    (hacc : cur.isAccepted = false) (hrej : cur.isRejected = false)
    (hnew : ∀ x ∈ st.accepted, x.id ≠ cur.id) :
    undo (onRight st) = st ∧ undo (onLeft st) = st ∧
    (st.history = [] → undo st = st) := by
  obtain ⟨h0, hlt⟩ := jsIndex_isSome_bounds hc
  have hmi : (st.activeIndex.toNat : ℤ) = st.activeIndex := Int.toNat_of_nonneg h0
  have hm : st.activeIndex.toNat < st.outfits.length := by omega
  have hget : st.outfits.get ⟨st.activeIndex.toNat, hm⟩ = cur := by
    unfold jsIndex at hc
    rw [if_pos h0] at hc
    obtain ⟨h', he⟩ := List.getElem?_eq_some.mp hc
    simpa [List.get_eq_getElem] using he
  refine ⟨?_, ?_, ?_⟩
  · rw [onRight_eq st cur hp hc]
    have hj : jsIndex (st.outfits.map (fun o =>
        if o.id == cur.id then { o with isAccepted := true, isRejected := false } else o))
        st.activeIndex = some { cur with isAccepted := true, isRejected := false } := by
      rw [jsIndex_map, hc]
      simp
    rw [undo_eq (goNext { st with
        outfits := st.outfits.map (fun o =>
          if o.id == cur.id then { o with isAccepted := true, isRejected := false } else o),
        accepted := addAccepted cur st.accepted,
        history := st.history ++ [⟨st.activeIndex, SwipeAction.right⟩] })
      ⟨st.activeIndex, SwipeAction.right⟩
      { cur with isAccepted := true, isRejected := false } hp
      (List.getLast?_concat _) hj]
    apply screenState_ext
    · refine mapIdx_clear_restores st.outfits st.activeIndex.toNat hm
        st.activeIndex hmi.symm hnodup _ ?_ ?_
      · intro x hx
        rw [hget] at hx
        have hb : (x.id == cur.id) = false := beq_eq_false_iff_ne.mpr hx
        simp [hb]
      · rw [hget]
        have hfc : (if cur.id == cur.id
            then ({ cur with isAccepted := true, isRejected := false } : Outfit)
            else cur) = { cur with isAccepted := true, isRejected := false } := by
          simp
        rw [hfc]
        exact clear_after_set cur hacc hrej true false
    · rfl
    · exact List.dropLast_concat
    · rfl
    · show removeAccepted cur.id (addAccepted cur st.accepted) = st.accepted
      exact removeAccepted_addAccepted cur st.accepted hnew
  · rw [onLeft_eq st cur hp hc]
    have hj : jsIndex (st.outfits.map (fun o =>
        if o.id == cur.id then { o with isRejected := true, isAccepted := false } else o))
        st.activeIndex = some { cur with isRejected := true, isAccepted := false } := by
      rw [jsIndex_map, hc]
      simp
    rw [undo_eq (goNext { st with
        outfits := st.outfits.map (fun o =>
          if o.id == cur.id then { o with isRejected := true, isAccepted := false } else o),
        history := st.history ++ [⟨st.activeIndex, SwipeAction.left⟩] })
      ⟨st.activeIndex, SwipeAction.left⟩
      { cur with isRejected := true, isAccepted := false } hp
      (List.getLast?_concat _) hj]
    apply screenState_ext
    · refine mapIdx_clear_restores st.outfits st.activeIndex.toNat hm
        st.activeIndex hmi.symm hnodup _ ?_ ?_
      · intro x hx
        rw [hget] at hx
        have hb : (x.id == cur.id) = false := beq_eq_false_iff_ne.mpr hx
        simp [hb]
      · rw [hget]
        have hfc : (if cur.id == cur.id
            then ({ cur with isRejected := true, isAccepted := false } : Outfit)
            else cur) = { cur with isRejected := true, isAccepted := false } := by
          simp
        rw [hfc]
        exact clear_after_set cur hacc hrej false true
    · rfl
    · exact List.dropLast_concat
    · rfl
    · rfl
  · intro hH
    simp [undo, hH]

/-- Witness for the amended C3 on a fresh one-outfit state. -/
theorem undo_reverts_one_fresh_swipe_witness :
    undo (onRight ⟨[⟨"1", "u", false, false⟩], 0, [], false, []⟩) =
      ⟨[⟨"1", "u", false, false⟩], 0, [], false, []⟩ ∧
    undo (onLeft ⟨[⟨"1", "u", false, false⟩], 0, [], false, []⟩) =
      ⟨[⟨"1", "u", false, false⟩], 0, [], false, []⟩ :=
  ⟨(undo_reverts_one_fresh_swipe ⟨[⟨"1", "u", false, false⟩], 0, [], false, []⟩
      ⟨"1", "u", false, false⟩ rfl rfl (by simp) rfl rfl (by simp)).1,
    (undo_reverts_one_fresh_swipe ⟨[⟨"1", "u", false, false⟩], 0, [], false, []⟩
      ⟨"1", "u", false, false⟩ rfl rfl (by simp) rfl rfl (by simp)).2.1⟩
